import Mathlib

/-!
Verification development for the `live` repository's client-side audio
playback scheduler.

Two historical clients exist in the repository:

* `public/app.js` — the current, threshold-buffered client.  Its playback
  state is the global variables `clientPlaybackBuffer`, `isPlaying` and
  `audioPlaybackNode`, mutated by `queueAudio`, `schedulePlayback`, the
  `onended` callback of the current `AudioBufferSourceNode`, and the
  `interruption` branch of `webSocket.onmessage`.  This is embedded in
  namespace `App`.

* an earlier client (an unnamed source file of the repository) — the
  immediate-playback client.  Its state is `audioQueue`, `isPlaying`
  and `audioPlaybackNode`, mutated by `queueAudio` and
  `playNextInQueue` (which is also the `onended` callback).  This is
  embedded in namespace `V1`.

The server's Live-API message dispatch (`server.js`) is embedded as
`serverOnLiveMessage`.

Machine integers: the audio bytes are `Fin 256` (entries of a JS
`Uint8Array`); decoded 16-bit samples are integers in `[-32768, 32767]`
and the normalised samples are rationals (the division `int16 / 32768.0`
is exact in IEEE binary32 for this range, so `ℚ` is a faithful model of
the Float32 values the code computes).
-/

/-- The signed 16-bit integer stored little-endian in the byte pair
`(lo, hi)` — the value a JS `Int16Array` element holds for those two
bytes (JS engines are little-endian, which is also what the spec
asserts). -/
def toInt16 (lo hi : Fin 256) : ℤ :=
  if lo.val + 256 * hi.val < 32768 then ((lo.val + 256 * hi.val : ℕ) : ℤ)
  else ((lo.val + 256 * hi.val : ℕ) : ℤ) - 65536

/-- The sample-decoding loop of `queueAudio`: every consecutive 2-byte
little-endian group becomes the sample `int16 / 32768.0`.  A trailing
lone byte decodes to nothing (an `Int16Array` view only covers whole
elements). -/
def decodePCM16LE : List (Fin 256) → List ℚ
  | lo :: hi :: rest => ((toInt16 lo hi : ℚ) / 32768) :: decodePCM16LE rest
  | _ => []

theorem toInt16_bounds (lo hi : Fin 256) :
    -32768 ≤ toInt16 lo hi ∧ toInt16 lo hi ≤ 32767 := by
  have hlo := lo.isLt
  have hhi := hi.isLt
  unfold toInt16
  split <;> constructor <;> omega

theorem sample_range (lo hi : Fin 256) :
    -1 ≤ (toInt16 lo hi : ℚ) / 32768 ∧ (toInt16 lo hi : ℚ) / 32768 ≤ 1 := by
  obtain ⟨h1, h2⟩ := toInt16_bounds lo hi
  have h1q : (-32768 : ℚ) ≤ (toInt16 lo hi : ℚ) := by exact_mod_cast h1
  have h2q : (toInt16 lo hi : ℚ) ≤ 32767 := by exact_mod_cast h2
  constructor
  · rw [le_div_iff₀ (by norm_num : (0 : ℚ) < 32768)]
    linarith
  · rw [div_le_one (by norm_num : (0 : ℚ) < 32768)]
    linarith

theorem decodePCM16LE_length : ∀ bs : List (Fin 256),
    (decodePCM16LE bs).length = bs.length / 2
  | [] => rfl
  | [_] => by simp [decodePCM16LE]
  | _ :: _ :: rest => by
    have ih := decodePCM16LE_length rest
    simp only [decodePCM16LE, List.length_cons, ih]
    omega

theorem decodePCM16LE_mem_range : ∀ bs : List (Fin 256),
    ∀ q ∈ decodePCM16LE bs, -1 ≤ q ∧ q ≤ 1
  | [] => by simp [decodePCM16LE]
  | [_] => by simp [decodePCM16LE]
  | lo :: hi :: rest => by
    intro q hq
    simp only [decodePCM16LE, List.mem_cons] at hq
    rcases hq with h | h
    · subst h; exact sample_range lo hi
    · exact decodePCM16LE_mem_range rest q h

theorem decodePCM16LE_get? : ∀ (bs : List (Fin 256)) (i : ℕ),
    2 * i + 1 < bs.length →
    ∃ lo hi, bs.get? (2 * i) = some lo ∧ bs.get? (2 * i + 1) = some hi ∧
      (decodePCM16LE bs).get? i = some ((toInt16 lo hi : ℚ) / 32768)
  | lo :: hi :: rest, 0, _ => ⟨lo, hi, rfl, rfl, rfl⟩
  | lo :: hi :: rest, i + 1, h => by
    have h' : 2 * i + 1 < rest.length := by
      simp only [List.length_cons] at h; omega
    obtain ⟨lo', hi', e1, e2, e3⟩ := decodePCM16LE_get? rest i h'
    refine ⟨lo', hi', ?_, ?_, ?_⟩
    · rw [show 2 * (i + 1) = (2 * i + 1) + 1 by omega]
      simpa using e1
    · rw [show 2 * (i + 1) + 1 = ((2 * i + 1) + 1) + 1 by omega]
      simpa using e2
    · simpa [decodePCM16LE] using e3
  | [], i, h => by simp at h
  | [_], i, h => by
    simp only [List.length_singleton] at h
    omega

theorem decodePCM16LE_replicate_zero : ∀ k : ℕ,
    decodePCM16LE (List.replicate (2 * k) (0 : Fin 256)) = List.replicate k (0 : ℚ)
  | 0 => rfl
  | k + 1 => by
    have h : 2 * (k + 1) = (2 * k + 1) + 1 := by omega
    rw [h, List.replicate_succ, show 2 * k + 1 = (2 * k) + 1 by omega, List.replicate_succ]
    have ih := decodePCM16LE_replicate_zero k
    simp only [decodePCM16LE, ih, List.replicate_succ]
    norm_num [toInt16]

namespace App

/-- `PLAYBACK_SAMPLE_RATE` in `public/app.js`. -/
def PLAYBACK_SAMPLE_RATE : ℕ := 24000

/-- `PLAYBACK_BUFFER_TARGET_DURATION_MS` in `public/app.js`. -/
def PLAYBACK_BUFFER_TARGET_DURATION_MS : ℕ := 500

/-- `MIN_SAMPLES_TO_START_PLAYBACK = PLAYBACK_SAMPLE_RATE *
(PLAYBACK_BUFFER_TARGET_DURATION_MS / 1000)`; the division is exact, so
natural-number division is a faithful model. -/
def MIN_SAMPLES_TO_START_PLAYBACK : ℕ :=
  PLAYBACK_SAMPLE_RATE * PLAYBACK_BUFFER_TARGET_DURATION_MS / 1000

theorem min_samples_eq : MIN_SAMPLES_TO_START_PLAYBACK = 12000 := rfl

/-- One `AudioBufferSourceNode` created by `schedulePlayback`, together
with the event bookkeeping the trace semantics needs.  `nid` is the
creation index (node object identity), `samples` the contents of the
`AudioBuffer` it plays, `stopped` whether `stop()` has been called,
`connected` whether its output is connected to the destination, and
`endedFired` whether its `onended` callback has already been
dispatched. -/
structure SourceNode where
  nid : ℕ
  samples : List ℚ
  stopped : Bool
  connected : Bool
  endedFired : Bool
deriving DecidableEq

/-- The playback-relevant global state of `public/app.js`:
`clientPlaybackBuffer`, `isPlaying`, `audioPlaybackNode` (by node id),
the list of every node created so far, and whether the
`AudioContext` is in the `running` state. -/
structure ClientState where
  clientPlaybackBuffer : List ℚ
  isPlaying : Bool
  audioPlaybackNode : Option ℕ
  nodes : List SourceNode
  contextRunning : Bool
deriving DecidableEq

/-- State right after session start: empty buffer, nothing playing. -/
def initState (running : Bool) : ClientState :=
  ⟨[], false, none, [], running⟩

/-- `node.stop(); node.disconnect();` applied to the node with id `k`. -/
def stopNode (ns : List SourceNode) (k : ℕ) : List SourceNode :=
  ns.map fun n => if n.nid = k then { n with stopped := true, connected := false } else n

/-- Bookkeeping: the `onended` callback of node `k` has been dispatched. -/
def markEnded (ns : List SourceNode) (k : ℕ) : List SourceNode :=
  ns.map fun n => if n.nid = k then { n with endedFired := true } else n

/-- The local `samplesToPlayCount` of `schedulePlayback`:
`Math.min(clientPlaybackBuffer.length, Math.max(MIN_SAMPLES_TO_START_PLAYBACK,
PLAYBACK_SAMPLE_RATE * (PLAYBACK_BUFFER_TARGET_DURATION_MS / 1000) * 2))`. -/
def samplesToPlayCount (s : ClientState) : ℕ :=
  min s.clientPlaybackBuffer.length
    (max MIN_SAMPLES_TO_START_PLAYBACK
      (PLAYBACK_SAMPLE_RATE * PLAYBACK_BUFFER_TARGET_DURATION_MS / 1000 * 2))

/-- `schedulePlayback()` of `public/app.js`, lines 292–323.  Guard:
return if already playing or the context is not running.  If at least
`MIN_SAMPLES_TO_START_PLAYBACK` samples are pending, set `isPlaying`,
splice out `samplesToPlayCount` samples, and — unless the spliced
block is empty (the defensive branch, which resets `isPlaying`) —
materialise a fresh buffer-source node, connect it, register its
`onended` handler, and start it. -/
def schedulePlayback (s : ClientState) : ClientState :=
  if s.isPlaying = true ∨ s.contextRunning = false then s
  else if MIN_SAMPLES_TO_START_PLAYBACK ≤ s.clientPlaybackBuffer.length then
    if (s.clientPlaybackBuffer.take (samplesToPlayCount s)).length = 0 then
      { s with isPlaying := false,
               clientPlaybackBuffer := s.clientPlaybackBuffer.drop (samplesToPlayCount s) }
    else
      { s with isPlaying := true,
               clientPlaybackBuffer := s.clientPlaybackBuffer.drop (samplesToPlayCount s),
               audioPlaybackNode := some s.nodes.length,
               nodes := s.nodes ++
                 [⟨s.nodes.length, s.clientPlaybackBuffer.take (samplesToPlayCount s),
                   false, true, false⟩] }
  else s

/-- `queueAudio(arrayBuffer)` of `public/app.js`, lines 276–290.
`new Int16Array(arrayBuffer)` throws a `RangeError` when the byte
length is odd — modelled as `Except.error` — before any state is
touched.  Otherwise the decoded samples are pushed onto
`clientPlaybackBuffer` and `schedulePlayback()` is invoked. -/
def queueAudio (s : ClientState) (bytes : List (Fin 256)) : Except Unit ClientState :=
  if bytes.length % 2 = 0 then
    .ok (schedulePlayback
      { s with clientPlaybackBuffer := s.clientPlaybackBuffer ++ decodePCM16LE bytes })
  else
    .error ()

/-- The `audio_data` branch of `webSocket.onmessage` (lines 144–146):
`queueAudio` runs inside the handler's `try`/`catch`, so a decode
`RangeError` is logged and swallowed, leaving the state unchanged. -/
def onAudioData (s : ClientState) (bytes : List (Fin 256)) : ClientState :=
  match queueAudio s bytes with
  | .ok s' => s'
  | .error _ => s

/-- The `onended` callback installed on every node (lines 316–319):
`isPlaying = false; schedulePlayback();`.  The callback does not check
which node ended.  `markEnded` is event bookkeeping (each node's
`onended` dispatches at most once). -/
def onUnitEnded (s : ClientState) (k : ℕ) : ClientState :=
  schedulePlayback { s with isPlaying := false, nodes := markEnded s.nodes k }

/-- The `interruption` branch of `webSocket.onmessage` (lines 168–177):
stop and disconnect the current node if any, drop the reference, clear
the pending buffer, clear the playing flag. -/
def onInterruption (s : ClientState) : ClientState :=
  let s1 := match s.audioPlaybackNode with
    | some k => { s with nodes := stopNode s.nodes k, audioPlaybackNode := none }
    | none => s
  { s1 with clientPlaybackBuffer := [], isPlaying := false }

/-- A node is in flight (audible or scheduled to sound) if it has been
started, not force-stopped, and its playback has not ended. -/
def inFlight (n : SourceNode) : Bool := !n.stopped && !n.endedFired

def inFlightCount (s : ClientState) : ℕ := (s.nodes.filter inFlight).length

/-- `IDLE`: nothing pending, nothing sounding, no current node. -/
def IdleState (s : ClientState) : Prop :=
  s.clientPlaybackBuffer = [] ∧ s.isPlaying = false ∧ s.audioPlaybackNode = none

instance (s : ClientState) : Decidable (IdleState s) := by
  unfold IdleState; infer_instance

/-- One dispatch of a browser event touching playback state: a
`message` event carrying `audio_data`, a `message` event carrying
`interruption`, or the `onended` callback of a previously created
node `k` (a node's `onended` dispatches at most once; the browser
guarantees nothing about when, so any not-yet-fired node may fire). -/
inductive Step : ClientState → ClientState → Prop
  | ingest (s : ClientState) (bytes : List (Fin 256)) : Step s (onAudioData s bytes)
  | interrupt (s : ClientState) : Step s (onInterruption s)
  | ended (s : ClientState) (k : ℕ)
      (h : ∃ m ∈ s.nodes, m.nid = k ∧ m.endedFired = false) :
      Step s (onUnitEnded s k)

/-- States reachable from session start by any sequence of events. -/
inductive Reachable : ClientState → Prop
  | init (running : Bool) : Reachable (initState running)
  | step {s t : ClientState} : Reachable s → Step s t → Reachable t

/-- Like `Step`, but `onended` only fires for a unit that is still in
flight — i.e. the end notification of a force-stopped unit is never
delivered late.  This is the schedule on which the spec's
"at most one unit in flight" conclusion holds. -/
inductive GoodStep : ClientState → ClientState → Prop
  | ingest (s : ClientState) (bytes : List (Fin 256)) : GoodStep s (onAudioData s bytes)
  | interrupt (s : ClientState) : GoodStep s (onInterruption s)
  | ended (s : ClientState) (k : ℕ)
      (h : ∃ m ∈ s.nodes, m.nid = k ∧ m.endedFired = false ∧ m.stopped = false) :
      GoodStep s (onUnitEnded s k)

inductive GoodReachable : ClientState → Prop
  | init (running : Bool) : GoodReachable (initState running)
  | step {s t : ClientState} : GoodReachable s → GoodStep s t → GoodReachable t

/-! ### Characterisation of `schedulePlayback` -/

theorem schedulePlayback_noop_playing {s : ClientState} (h : s.isPlaying = true) :
    schedulePlayback s = s := by
  unfold schedulePlayback
  rw [if_pos (Or.inl h)]

theorem schedulePlayback_noop_notRunning {s : ClientState} (h : s.contextRunning = false) :
    schedulePlayback s = s := by
  unfold schedulePlayback
  rw [if_pos (Or.inr h)]

theorem schedulePlayback_noop_small {s : ClientState}
    (h : s.clientPlaybackBuffer.length < MIN_SAMPLES_TO_START_PLAYBACK) :
    schedulePlayback s = s := by
  unfold schedulePlayback
  split
  · rfl
  · rw [if_neg (by omega)]

theorem samplesToPlayCount_bounds {s : ClientState}
    (h : MIN_SAMPLES_TO_START_PLAYBACK ≤ s.clientPlaybackBuffer.length) :
    MIN_SAMPLES_TO_START_PLAYBACK ≤ samplesToPlayCount s ∧
      samplesToPlayCount s ≤ 24000 ∧
      samplesToPlayCount s ≤ s.clientPlaybackBuffer.length := by
  rw [min_samples_eq] at h
  unfold samplesToPlayCount
  rw [min_samples_eq]
  simp only [PLAYBACK_SAMPLE_RATE, PLAYBACK_BUFFER_TARGET_DURATION_MS]
  omega

theorem schedulePlayback_materialize {s : ClientState}
    (hr : s.contextRunning = true) (hp : s.isPlaying = false)
    (hl : MIN_SAMPLES_TO_START_PLAYBACK ≤ s.clientPlaybackBuffer.length) :
    schedulePlayback s =
      { s with isPlaying := true,
               clientPlaybackBuffer := s.clientPlaybackBuffer.drop (samplesToPlayCount s),
               audioPlaybackNode := some s.nodes.length,
               nodes := s.nodes ++
                 [⟨s.nodes.length, s.clientPlaybackBuffer.take (samplesToPlayCount s),
                   false, true, false⟩] } := by
  obtain ⟨hb1, _, hb3⟩ := samplesToPlayCount_bounds hl
  unfold schedulePlayback
  rw [if_neg (by simp [hp, hr]), if_pos hl, if_neg (by
    rw [List.length_take]
    rw [min_samples_eq] at hb1
    omega)]

/-! ### Characterisation of `queueAudio` / the `audio_data` handler -/

theorem queueAudio_even {s : ClientState} {bytes : List (Fin 256)}
    (h : bytes.length % 2 = 0) :
    queueAudio s bytes = .ok (schedulePlayback
      { s with clientPlaybackBuffer := s.clientPlaybackBuffer ++ decodePCM16LE bytes }) := by
  unfold queueAudio
  rw [if_pos h]

theorem queueAudio_odd {s : ClientState} {bytes : List (Fin 256)}
    (h : bytes.length % 2 = 1) : queueAudio s bytes = .error () := by
  unfold queueAudio
  rw [if_neg (by omega)]

theorem onAudioData_even {s : ClientState} {bytes : List (Fin 256)}
    (h : bytes.length % 2 = 0) :
    onAudioData s bytes = schedulePlayback
      { s with clientPlaybackBuffer := s.clientPlaybackBuffer ++ decodePCM16LE bytes } := by
  unfold onAudioData
  rw [queueAudio_even h]

theorem onAudioData_odd {s : ClientState} {bytes : List (Fin 256)}
    (h : bytes.length % 2 = 1) : onAudioData s bytes = s := by
  unfold onAudioData
  rw [queueAudio_odd h]

/-! ### List bookkeeping lemmas for the in-flight invariant -/

theorem filter_inFlight_stopNode : ∀ (ns : List SourceNode) (k : ℕ),
    (stopNode ns k).filter inFlight =
      (ns.filter inFlight).filter (fun m => !(m.nid == k))
  | [], _ => rfl
  | n :: t, k => by
    have ih := filter_inFlight_stopNode t k
    show List.filter inFlight
        ((if n.nid = k then { n with stopped := true, connected := false } else n) ::
          stopNode t k) =
      List.filter (fun m => !(m.nid == k)) (List.filter inFlight (n :: t))
    by_cases h : n.nid = k
    · rw [if_pos h]
      have h1 : inFlight { n with stopped := true, connected := false } = false := rfl
      rw [List.filter_cons, List.filter_cons, h1]
      simp only [Bool.false_eq_true, if_false, ih]
      by_cases hf : inFlight n = true
      · rw [if_pos hf, List.filter_cons]
        have h2 : (!(n.nid == k)) = false := by simp [h]
        rw [h2]
        simp
      · rw [if_neg hf]
    · rw [if_neg h, List.filter_cons, List.filter_cons]
      by_cases hf : inFlight n = true
      · rw [if_pos hf, if_pos hf, List.filter_cons]
        have h2 : (!(n.nid == k)) = true := by simp [h]
        rw [h2]
        simp only [if_true, ih]
      · rw [if_neg hf, if_neg hf, ih]

theorem filter_inFlight_markEnded : ∀ (ns : List SourceNode) (k : ℕ),
    (markEnded ns k).filter inFlight =
      (ns.filter inFlight).filter (fun m => !(m.nid == k))
  | [], _ => rfl
  | n :: t, k => by
    have ih := filter_inFlight_markEnded t k
    show List.filter inFlight
        ((if n.nid = k then { n with endedFired := true } else n) :: markEnded t k) =
      List.filter (fun m => !(m.nid == k)) (List.filter inFlight (n :: t))
    by_cases h : n.nid = k
    · rw [if_pos h]
      have h1 : inFlight { n with endedFired := true } = false := by
        simp [inFlight]
      rw [List.filter_cons, List.filter_cons, h1]
      simp only [Bool.false_eq_true, if_false, ih]
      by_cases hf : inFlight n = true
      · rw [if_pos hf, List.filter_cons]
        have h2 : (!(n.nid == k)) = false := by simp [h]
        rw [h2]
        simp
      · rw [if_neg hf]
    · rw [if_neg h, List.filter_cons, List.filter_cons]
      by_cases hf : inFlight n = true
      · rw [if_pos hf, if_pos hf, List.filter_cons]
        have h2 : (!(n.nid == k)) = true := by simp [h]
        rw [h2]
        simp only [if_true, ih]
      · rw [if_neg hf, if_neg hf, ih]

theorem filter_ne_of_map_nid_singleton {l : List SourceNode} {k : ℕ}
    (h : l.map SourceNode.nid = [k]) :
    l.filter (fun m => !(m.nid == k)) = [] := by
  match l with
  | [] => simp at h
  | [m] =>
    simp only [List.map_cons, List.map_nil, List.cons.injEq, and_true] at h
    simp [h]
  | m :: m' :: t => simp at h

/-! ### The in-flight invariant (good schedules) -/

/-- Invariant tying the playing flag, the current-node reference and
the set of in-flight nodes together: when `isPlaying` the in-flight
nodes are exactly the current node; otherwise there are none. -/
def InFlightInv (s : ClientState) : Prop :=
  (s.isPlaying = true →
    ∃ k, s.audioPlaybackNode = some k ∧
      (s.nodes.filter inFlight).map SourceNode.nid = [k]) ∧
  (s.isPlaying = false → s.nodes.filter inFlight = [])

theorem inFlightInv_schedulePlayback {s : ClientState} (h : InFlightInv s) :
    InFlightInv (schedulePlayback s) := by
  by_cases hp : s.isPlaying = true
  · rw [schedulePlayback_noop_playing hp]; exact h
  · have hp' : s.isPlaying = false := by simp_all
    by_cases hr : s.contextRunning = true
    · by_cases hl : MIN_SAMPLES_TO_START_PLAYBACK ≤ s.clientPlaybackBuffer.length
      · rw [schedulePlayback_materialize hr hp' hl]
        have h0 : s.nodes.filter inFlight = [] := h.2 hp'
        refine ⟨fun _ => ⟨s.nodes.length, rfl, ?_⟩, fun hc => by simp at hc⟩
        rw [List.filter_append, h0]
        rfl
      · rw [schedulePlayback_noop_small (by omega)]; exact h
    · have hr' : s.contextRunning = false := by simp_all
      rw [schedulePlayback_noop_notRunning hr']; exact h

theorem inFlightInv_onAudioData {s : ClientState} (h : InFlightInv s)
    (bytes : List (Fin 256)) : InFlightInv (onAudioData s bytes) := by
  rcases Nat.mod_two_eq_zero_or_one bytes.length with he | ho
  · rw [onAudioData_even he]
    exact inFlightInv_schedulePlayback h
  · rw [onAudioData_odd ho]
    exact h

theorem inFlightInv_onInterruption {s : ClientState} (h : InFlightInv s) :
    InFlightInv (onInterruption s) := by
  rcases h with ⟨h1, h2⟩
  unfold onInterruption
  refine ⟨fun hp => by simp at hp, fun _ => ?_⟩
  match hnode : s.audioPlaybackNode with
  | none =>
    simp only [hnode]
    by_cases hp : s.isPlaying = true
    · obtain ⟨k, hk, _⟩ := h1 hp
      rw [hnode] at hk; cases hk
    · exact h2 (by simp_all)
  | some k =>
    simp only [hnode]
    by_cases hp : s.isPlaying = true
    · obtain ⟨k', hk', hmap⟩ := h1 hp
      rw [hnode] at hk'
      cases hk'
      rw [filter_inFlight_stopNode]
      exact filter_ne_of_map_nid_singleton hmap
    · rw [filter_inFlight_stopNode, h2 (by simp_all)]
      rfl

theorem inFlightInv_onUnitEnded {s : ClientState} (h : InFlightInv s) {k : ℕ}
    (hk : ∃ m ∈ s.nodes, m.nid = k ∧ m.endedFired = false ∧ m.stopped = false) :
    InFlightInv (onUnitEnded s k) := by
  obtain ⟨m, hm, hnid, hend, hstop⟩ := hk
  have hmf : m ∈ s.nodes.filter inFlight := by
    rw [List.mem_filter]
    exact ⟨hm, by simp [inFlight, hend, hstop]⟩
  have hp : s.isPlaying = true := by
    by_contra hp
    have := h.2 (by simp_all)
    rw [this] at hmf
    exact absurd hmf (List.not_mem_nil m)
  obtain ⟨k', hk', hmap⟩ := h.1 hp
  have hkk : m.nid = k' := by
    have : m.nid ∈ (s.nodes.filter inFlight).map SourceNode.nid :=
      List.mem_map_of_mem SourceNode.nid hmf
    rw [hmap] at this
    simpa using this
  have hfilter : (markEnded s.nodes k).filter inFlight = [] := by
    rw [filter_inFlight_markEnded]
    rw [hnid] at hkk
    subst hkk
    exact filter_ne_of_map_nid_singleton hmap
  apply inFlightInv_schedulePlayback
  exact ⟨fun hc => by simp at hc, fun _ => hfilter⟩

theorem goodReachable_inFlightInv {s : ClientState} (h : GoodReachable s) :
    InFlightInv s := by
  induction h with
  | init running => exact ⟨fun hp => by simp [initState] at hp, fun _ => rfl⟩
  | step _ hstep ih =>
    cases hstep with
    | ingest bytes => exact inFlightInv_onAudioData ih bytes
    | interrupt => exact inFlightInv_onInterruption ih
    | ended k hk => exact inFlightInv_onUnitEnded ih hk

theorem goodReachable_inFlightCount {s : ClientState} (h : GoodReachable s) :
    inFlightCount s ≤ 1 := by
  obtain ⟨h1, h2⟩ := goodReachable_inFlightInv h
  unfold inFlightCount
  by_cases hp : s.isPlaying = true
  · obtain ⟨k, _, hmap⟩ := h1 hp
    have := congrArg List.length hmap
    simp only [List.length_map, List.length_singleton] at this
    omega
  · rw [h2 (by simp_all)]
    simp

/-! ### The post-condition `schedulePlayback` re-establishes -/

/-- After any scheduler entry point returns, either a unit is playing,
or fewer than threshold-many samples are pending, or the context is
not running.  (`schedulePlayback` re-establishes this on every call.) -/
def SchedInv (s : ClientState) : Prop :=
  s.isPlaying = true ∨
    s.clientPlaybackBuffer.length < MIN_SAMPLES_TO_START_PLAYBACK ∨
    s.contextRunning = false

theorem schedInv_schedulePlayback (s : ClientState) : SchedInv (schedulePlayback s) := by
  by_cases hp : s.isPlaying = true
  · rw [schedulePlayback_noop_playing hp]; exact Or.inl hp
  · have hp' : s.isPlaying = false := by simp_all
    by_cases hr : s.contextRunning = true
    · by_cases hl : MIN_SAMPLES_TO_START_PLAYBACK ≤ s.clientPlaybackBuffer.length
      · rw [schedulePlayback_materialize hr hp' hl]
        exact Or.inl rfl
      · rw [schedulePlayback_noop_small (by omega)]
        exact Or.inr (Or.inl (by omega))
    · have hr' : s.contextRunning = false := by simp_all
      rw [schedulePlayback_noop_notRunning hr']
      exact Or.inr (Or.inr hr')

theorem schedulePlayback_noop_of_schedInv {s : ClientState} (h : SchedInv s) :
    schedulePlayback s = s := by
  rcases h with h | h | h
  · exact schedulePlayback_noop_playing h
  · exact schedulePlayback_noop_small h
  · exact schedulePlayback_noop_notRunning h

theorem reachable_schedInv {s : ClientState} (h : Reachable s) : SchedInv s := by
  induction h with
  | init running =>
    exact Or.inr (Or.inl (by simp [initState, min_samples_eq]))
  | step _ hstep ih =>
    cases hstep with
    | ingest bytes =>
      rcases Nat.mod_two_eq_zero_or_one bytes.length with he | ho
      · rw [onAudioData_even he]
        exact schedInv_schedulePlayback _
      · rw [onAudioData_odd ho]
        exact ih
    | interrupt =>
      exact Or.inr (Or.inl (by simp [onInterruption, min_samples_eq]))
    | ended k _ =>
      exact schedInv_schedulePlayback _

end App

/-! ## The transport layer

`server.js` relays Live-API callbacks to the browser as JSON WebSocket
messages, and `webSocket.onmessage` in `public/app.js` dispatches on
their `type` field.  Base64 encoding on the server and
`base64ToArrayBuffer` on the client compose to the identity on the
audio bytes, so the payload is modelled as the byte list itself. -/

/-- A JSON message the embedded `onmessage` dispatch of `server.js`
can send over the WebSocket.  (`server.js` also sends `status`
messages, but only from the Live API's `onopen`/`onclose` lifecycle
callbacks, not from the `onmessage` relay modelled here; the client's
`status` branch does session bookkeeping and, for
`'AI session closed.'` during an active session, runs
`endSessionCleanup` — the spec's `onSessionEnd`, a whole-session
teardown rather than one of the scheduler operations these claims
concern — so `status` is left out of this model rather than modelled
as a no-op.) -/
inductive WsMessage
  | audioData (bytes : List (Fin 256))
  | errorMsg
  | interruption
deriving DecidableEq

/-- The `serverContent` field of a Live-API message (`server.js`
lines 75–87): the three flags the server inspects. -/
structure ServerContent where
  outputTranscription : Bool
  turnComplete : Bool
  interrupted : Bool
deriving DecidableEq

/-- A message from the Live API as dispatched by the `onmessage`
callback in `server.js` (lines 68–93): either audio data, or
`serverContent`, or an error. -/
inductive LiveMessage
  | withData (bytes : List (Fin 256))
  | withServerContent (sc : ServerContent)
  | withError

/-- The `onmessage` callback of `server.js` (lines 68–93), as the list
of WebSocket messages it sends to the client.  Audio data is
forwarded; `serverContent.interrupted` triggers an `interruption`
message; `serverContent.turnComplete` and
`serverContent.outputTranscription` are only logged; an error is
forwarded as an `error` message. -/
def serverOnLiveMessage : LiveMessage → List WsMessage
  | .withData bytes => [.audioData bytes]
  | .withServerContent sc => if sc.interrupted then [.interruption] else []
  | .withError => [.errorMsg]

/-- `webSocket.onmessage` of `public/app.js` (lines 141–181) restricted
to its effect on playback state, for the message types the embedded
server dispatch emits: `audio_data` ingests, `interruption`
interrupts; `error` only calls `endSession()`, which closes the
WebSocket — the playback teardown happens later in the `onclose`
callback — so it changes no playback state within the handler. -/
def clientOnMessage (s : App.ClientState) : WsMessage → App.ClientState
  | .audioData bytes => App.onAudioData s bytes
  | .errorMsg => s
  | .interruption => App.onInterruption s

/-- The client processing a sequence of WebSocket messages in order. -/
def processMessages (s : App.ClientState) (ms : List WsMessage) : App.ClientState :=
  ms.foldl clientOnMessage s

namespace V1

/-- Playback state of the earlier, immediate-policy client: the queue
of decoded `AudioBuffer`s (`audioQueue`) and the `isPlaying` flag.
`started`, `now` and `ingested` are observation-only fields recording,
respectively, each buffer handed to a source node together with the
clock time at which its `start()` ran; the time of the last processed
event; and every decoded chunk accepted by `queueAudio`.  No operation
reads them. -/
structure V1State where
  audioQueue : List (List ℚ)
  isPlaying : Bool
  contextRunning : Bool
  started : List (ℚ × List ℚ)
  now : ℚ
  ingested : List (List ℚ)
deriving DecidableEq

/-- State at session start. -/
def vinit : V1State := ⟨[], false, true, [], 0, []⟩

/-- Absolute end time of a started unit: start time plus
`sampleCount / 24000`. -/
def unitEnd (u : ℚ × List ℚ) : ℚ := u.1 + (u.2.length : ℚ) / 24000

/-- `playNextInQueue()` of the immediate-policy client, run at clock
time `t`: if the queue is empty or the context is not running, clear
`isPlaying` and return; otherwise set `isPlaying`, shift the head
buffer, build a source node for it and `start()` it (i.e. it starts
at the current clock time `t` — there is no scheduled start-time
argument and no `nextStartTime` cursor in this code). -/
def playNextInQueue (t : ℚ) (s : V1State) : V1State :=
  match s.audioQueue, s.contextRunning with
  | b :: rest, true =>
    { s with isPlaying := true, audioQueue := rest, started := s.started ++ [(t, b)] }
  | _, _ => { s with isPlaying := false }

/-- Pushing a decoded chunk onto `audioQueue` (one `AudioBuffer` per
ingested chunk). -/
def enqueue (s : V1State) (samples : List ℚ) : V1State :=
  { s with audioQueue := s.audioQueue ++ [samples],
           ingested := s.ingested ++ [samples] }

/-- `queueAudio(arrayBuffer)` of the immediate-policy client at clock
time `t`: decode (the `Int16Array` view throws on odd byte length,
before any state is touched); if the context is running, push one
`AudioBuffer` holding the decoded chunk and, when nothing is playing,
invoke `playNextInQueue`. -/
def queueAudio (t : ℚ) (s : V1State) (bytes : List (Fin 256)) : Except Unit V1State :=
  if bytes.length % 2 = 0 then
    if s.contextRunning = true then
      if s.isPlaying = true then .ok (enqueue s (decodePCM16LE bytes))
      else .ok (playNextInQueue t (enqueue s (decodePCM16LE bytes)))
    else .ok s
  else .error ()

/-- The `audio_data` branch of this client's `webSocket.onmessage`,
whose `try`/`catch` swallows the decode error. -/
def onAudioData (t : ℚ) (s : V1State) (bytes : List (Fin 256)) : V1State :=
  match queueAudio t s bytes with
  | .ok s' => s'
  | .error _ => s

/-- A timed event delivered to the immediate-policy client: an
`audio_data` message arriving at clock time `t`, or the `onended`
callback of the currently sounding node dispatched at clock time `t`
(its handler is `playNextInQueue`). -/
inductive VEvent
  | ingest (t : ℚ) (bytes : List (Fin 256))
  | ended (t : ℚ)
deriving DecidableEq

def vstep (s : V1State) : VEvent → V1State
  | .ingest t bytes => { onAudioData t s bytes with now := t }
  | .ended t => { playNextInQueue t s with now := t }

/-- Admissibility of an event in a state: event times never decrease,
and an `onended` can only be dispatched when a unit is sounding (each
node fires once, so the pending notification always belongs to the
most recently started unit) and no earlier than that unit's natural
end time. -/
def okEvent (s : V1State) : VEvent → Bool
  | .ingest t _ => decide (s.now ≤ t)
  | .ended t =>
    decide (s.now ≤ t) && s.isPlaying &&
      (match s.started.getLast? with
       | some u => decide (unitEnd u ≤ t)
       | none => true)

/-- A trace of events is well formed when every event is admissible in
the state it is delivered to. -/
def wfTrace : V1State → List VEvent → Bool
  | _, [] => true
  | s, e :: es => okEvent s e && wfTrace (vstep s e) es

def runTrace (s : V1State) (es : List VEvent) : V1State := es.foldl vstep s

/-- Consecutive started units never overlap; the next unit starts at
or after the previous one's natural end (equality only when the end
notification is dispatched with zero delay). -/
def contiguousLe : List (ℚ × List ℚ) → Prop
  | u :: v :: rest => unitEnd u ≤ v.1 ∧ contiguousLe (v :: rest)
  | _ => True

/-- Trace invariant of the immediate-policy client: started units are
non-overlapping and ordered; the started units followed by the queue
are exactly the accepted chunks, in order; when nothing is playing the
queue is empty and the last unit has already ended. -/
def VInv (s : V1State) : Prop :=
  s.contextRunning = true ∧
  contiguousLe s.started ∧
  s.started.map Prod.snd ++ s.audioQueue = s.ingested ∧
  (s.isPlaying = false → s.audioQueue = []) ∧
  (s.isPlaying = false → ∀ u, s.started.getLast? = some u → unitEnd u ≤ s.now)

theorem contiguousLe_concat : ∀ (l : List (ℚ × List ℚ)) (t : ℚ) (b : List ℚ),
    contiguousLe l → (∀ u, l.getLast? = some u → unitEnd u ≤ t) →
    contiguousLe (l ++ [(t, b)])
  | [], t, b, _, _ => trivial
  | [u], t, b, _, hl => ⟨hl u rfl, trivial⟩
  | u :: v :: rest, t, b, hc, hl => by
    refine ⟨hc.1, ?_⟩
    exact contiguousLe_concat (v :: rest) t b hc.2 (fun w hw => hl w (by simpa using hw))

theorem vinv_vinit : VInv vinit := by
  refine ⟨rfl, trivial, rfl, fun _ => rfl, fun _ u hu => ?_⟩
  simp [vinit] at hu

theorem vinv_step {s : V1State} {e : VEvent} (hinv : VInv s)
    (hok : okEvent s e = true) : VInv (vstep s e) := by
  obtain ⟨hrun, hcont, hcons, hq, hlast⟩ := hinv
  cases e with
  | ingest t bytes =>
    simp only [okEvent, decide_eq_true_eq] at hok
    rcases Nat.mod_two_eq_zero_or_one bytes.length with he | ho
    · by_cases hp : s.isPlaying = true
      · have heq : vstep s (.ingest t bytes) =
            { enqueue s (decodePCM16LE bytes) with now := t } := by
          simp [vstep, onAudioData, queueAudio, he, hrun, hp]
        rw [heq]
        refine ⟨hrun, hcont, ?_, ?_, ?_⟩
        · show List.map Prod.snd s.started ++ (s.audioQueue ++ [decodePCM16LE bytes]) =
            s.ingested ++ [decodePCM16LE bytes]
          rw [← List.append_assoc, hcons]
        · intro hc
          exact absurd (hp.symm.trans (show s.isPlaying = false from hc)) (by decide)
        · intro hc
          exact absurd (hp.symm.trans (show s.isPlaying = false from hc)) (by decide)
      · have hp' : s.isPlaying = false := by simp_all
        have hqe : s.audioQueue = [] := hq hp'
        have heq : vstep s (.ingest t bytes) =
            { playNextInQueue t (enqueue s (decodePCM16LE bytes)) with now := t } := by
          simp [vstep, onAudioData, queueAudio, he, hrun, hp']
        rw [heq]
        have henq : (enqueue s (decodePCM16LE bytes)).audioQueue = [decodePCM16LE bytes] := by
          simp [enqueue, hqe]
        have hplay : playNextInQueue t (enqueue s (decodePCM16LE bytes)) =
            { enqueue s (decodePCM16LE bytes) with
              isPlaying := true, audioQueue := [],
              started := s.started ++ [(t, decodePCM16LE bytes)] } := by
          unfold playNextInQueue
          rw [henq]
          simp [enqueue, hrun]
        rw [hplay]
        refine ⟨hrun, ?_, ?_, ?_, ?_⟩
        · exact contiguousLe_concat _ _ _ hcont
            (fun u hu => le_trans (hlast hp' u hu) hok)
        · show List.map Prod.snd (s.started ++ [(t, decodePCM16LE bytes)]) ++ [] =
            s.ingested ++ [decodePCM16LE bytes]
          have hns : List.map Prod.snd s.started = s.ingested := by
            simpa [hqe] using hcons
          simp [List.map_append, hns]
        · intro hc
          exact absurd (show (true : Bool) = false from hc) (by decide)
        · intro hc
          exact absurd (show (true : Bool) = false from hc) (by decide)
    · have heq : vstep s (.ingest t bytes) = { s with now := t } := by
        simp [vstep, onAudioData, queueAudio, ho]
      rw [heq]
      exact ⟨hrun, hcont, hcons, hq,
        fun hp u hu => le_trans (hlast hp u hu) hok⟩
  | ended t =>
    simp only [okEvent, Bool.and_eq_true, decide_eq_true_eq] at hok
    obtain ⟨⟨hnow, hp⟩, hend⟩ := hok
    match hqe : s.audioQueue with
    | [] =>
      have heq : vstep s (.ended t) = { s with isPlaying := false, now := t } := by
        unfold vstep playNextInQueue
        rw [hqe]
      rw [heq]
      refine ⟨hrun, hcont, by simpa [hqe] using hcons, fun _ => hqe, fun _ u hu => ?_⟩
      have hu' : s.started.getLast? = some u := hu
      have h2 := hend
      rw [hu'] at h2
      simp only [decide_eq_true_eq] at h2
      exact h2
    | b :: rest =>
      have heq : vstep s (.ended t) =
          { s with isPlaying := true, audioQueue := rest,
                   started := s.started ++ [(t, b)], now := t } := by
        unfold vstep playNextInQueue
        rw [hqe, hrun]
      rw [heq]
      refine ⟨hrun, ?_, ?_, ?_, ?_⟩
      · refine contiguousLe_concat _ _ _ hcont (fun u hu => ?_)
        have h2 := hend
        rw [hu] at h2
        simp only [decide_eq_true_eq] at h2
        exact h2
      · show List.map Prod.snd (s.started ++ [(t, b)]) ++ rest = s.ingested
        rw [List.map_append, ← hcons, hqe]
        simp
      · intro hc
        exact absurd (show (true : Bool) = false from hc) (by decide)
      · intro hc
        exact absurd (show (true : Bool) = false from hc) (by decide)

theorem vinv_runTrace : ∀ (es : List VEvent) (s : V1State),
    VInv s → wfTrace s es = true → VInv (runTrace s es)
  | [], s, h, _ => h
  | e :: es, s, h, hwf => by
    simp only [wfTrace, Bool.and_eq_true] at hwf
    exact vinv_runTrace es (vstep s e) (vinv_step h hwf.1) hwf.2

end V1

/-! ## Concrete scenario states (threshold-policy client) -/

theorem App.onAudioData_replicate (s : App.ClientState) (k : ℕ) :
    App.onAudioData s (List.replicate (2 * k) 0) =
      App.schedulePlayback { s with clientPlaybackBuffer :=
        s.clientPlaybackBuffer ++ List.replicate k 0 } := by
  rw [App.onAudioData_even (by simp [Nat.mul_mod_right]),
    decodePCM16LE_replicate_zero]

theorem App.samplesToPlayCount_replicate (pre : List ℚ) (n : ℕ) (b : Bool)
    (o : Option ℕ) (ns : List App.SourceNode) (r : Bool) (hpre : pre = []) :
    App.samplesToPlayCount ⟨pre ++ List.replicate n 0, b, o, ns, r⟩ = min n 24000 := by
  subst hpre
  simp [-List.reduceReplicate, App.samplesToPlayCount, App.MIN_SAMPLES_TO_START_PLAYBACK,
    App.PLAYBACK_SAMPLE_RATE, App.PLAYBACK_BUFFER_TARGET_DURATION_MS]

/-- A 5000-sample chunk as its 10000-byte wire form. -/
def chunk5k : List (Fin 256) := List.replicate 10000 0

/-- State after ingesting one 5000-sample chunk from the initial state. -/
def st1 : App.ClientState := App.onAudioData (App.initState true) chunk5k

/-- State after ingesting a second 5000-sample chunk. -/
def st2 : App.ClientState := App.onAudioData st1 chunk5k

/-- State after ingesting a third 5000-sample chunk. -/
def st3 : App.ClientState := App.onAudioData st2 chunk5k

theorem st1_eq : st1 = ⟨List.replicate 5000 0, false, none, [], true⟩ := by
  have h : chunk5k = List.replicate (2 * 5000) 0 := rfl
  rw [st1, h, App.onAudioData_replicate]
  rw [App.schedulePlayback_noop_small
    (by simp [-List.reduceReplicate, App.initState, App.min_samples_eq])]
  simp [-List.reduceReplicate, App.initState]

theorem st2_eq : st2 = ⟨List.replicate 10000 0, false, none, [], true⟩ := by
  have h : chunk5k = List.replicate (2 * 5000) 0 := rfl
  rw [st2, st1_eq, h, App.onAudioData_replicate]
  rw [App.schedulePlayback_noop_small
    (by simp [-List.reduceReplicate, App.min_samples_eq])]
  have hb : List.replicate 5000 (0 : ℚ) ++ List.replicate 5000 0 =
      List.replicate 10000 0 := by
    rw [← List.replicate_add]
  simp [-List.reduceReplicate, hb]

theorem App.schedulePlayback_replicate (n : ℕ) (o : Option ℕ)
    (ns : List App.SourceNode) (hn : 12000 ≤ n) :
    App.schedulePlayback ⟨List.replicate n 0, false, o, ns, true⟩ =
      ⟨List.replicate (n - min n 24000) 0, true, some ns.length,
        ns ++ [⟨ns.length, List.replicate (min n 24000) 0, false, true, false⟩],
        true⟩ := by
  rw [App.schedulePlayback_materialize rfl rfl
    (by simp only [List.length_replicate, App.min_samples_eq]; exact hn)]
  have hc : App.samplesToPlayCount ⟨List.replicate n 0, false, o, ns, true⟩ =
      min n 24000 := by
    unfold App.samplesToPlayCount
    simp only [List.length_replicate, App.MIN_SAMPLES_TO_START_PLAYBACK,
      App.PLAYBACK_SAMPLE_RATE, App.PLAYBACK_BUFFER_TARGET_DURATION_MS]
    omega
  dsimp only
  rw [hc, List.take_replicate, List.drop_replicate,
    show min (min n 24000) n = min n 24000 by omega]

theorem st3_eq : st3 =
    ⟨[], true, some 0, [⟨0, List.replicate 15000 0, false, true, false⟩], true⟩ := by
  have h : chunk5k = List.replicate (2 * 5000) 0 := rfl
  rw [st3, st2_eq, h, App.onAudioData_replicate]
  have hb : List.replicate 10000 (0 : ℚ) ++ List.replicate 5000 0 =
      List.replicate 15000 0 := by
    rw [← List.replicate_add]
  simp only [hb]
  rw [App.schedulePlayback_replicate 15000 none [] (by omega),
    show min 15000 24000 = 15000 by omega]
  simp only [Nat.sub_self, List.replicate_zero, List.nil_append, List.length_nil]

/-! ### The interruption / late-`onended` race scenario -/

/-- A 12000-sample chunk as its 24000-byte wire form. -/
def chunk12k : List (Fin 256) := List.replicate 24000 0

/-- A 36000-sample chunk as its 72000-byte wire form. -/
def chunk36k : List (Fin 256) := List.replicate 72000 0

/-- The first materialised unit of the race scenario. -/
def node0 : App.SourceNode := ⟨0, List.replicate 12000 0, false, true, false⟩

/-- `node0` after the interruption force-stopped it. -/
def node0s : App.SourceNode := ⟨0, List.replicate 12000 0, true, false, false⟩

/-- `node0s` after its late `onended` notification was processed. -/
def node0se : App.SourceNode := ⟨0, List.replicate 12000 0, true, false, true⟩

/-- The unit materialised from the post-interruption audio. -/
def node1 : App.SourceNode := ⟨1, List.replicate 24000 0, false, true, false⟩

/-- The extra unit materialised by the late `onended` of `node0`. -/
def node2 : App.SourceNode := ⟨2, List.replicate 12000 0, false, true, false⟩

/-- Race scenario, step 1: ingest 12000 samples; one unit starts. -/
def sB1 : App.ClientState := App.onAudioData (App.initState true) chunk12k

/-- Race scenario, step 2: the server signals an interruption. -/
def sB2 : App.ClientState := App.onInterruption sB1

/-- Race scenario, step 3: 36000 fresh samples arrive; a new unit of
24000 samples starts, 12000 samples stay pending. -/
def sB3 : App.ClientState := App.onAudioData sB2 chunk36k

/-- Race scenario, step 4: the late `onended` of the force-stopped
`node0` is dispatched. -/
def sB4 : App.ClientState := App.onUnitEnded sB3 0

theorem sB1_eq : sB1 = ⟨[], true, some 0, [node0], true⟩ := by
  have h : chunk12k = List.replicate (2 * 12000) 0 := rfl
  rw [sB1, h, App.onAudioData_replicate]
  dsimp only [App.initState]
  simp only [List.nil_append]
  rw [App.schedulePlayback_replicate 12000 none [] (by omega),
    show min 12000 24000 = 12000 by omega]
  simp only [Nat.sub_self, List.replicate_zero, List.nil_append, List.length_nil]
  rfl

theorem sB2_eq : sB2 = ⟨[], false, none, [node0s], true⟩ := by
  rw [sB2, sB1_eq]
  unfold App.onInterruption
  simp only [-List.reduceReplicate, App.stopNode, List.map_cons, List.map_nil,
    node0, node0s]
  rfl

theorem sB3_eq : sB3 = ⟨List.replicate 12000 0, true, some 1, [node0s, node1], true⟩ := by
  have h : chunk36k = List.replicate (2 * 36000) 0 := rfl
  rw [sB3, sB2_eq, h, App.onAudioData_replicate]
  have hb : ([] : List ℚ) ++ List.replicate 36000 (0 : ℚ) = List.replicate 36000 0 :=
    List.nil_append _
  simp only [hb]
  rw [App.schedulePlayback_replicate 36000 none [node0s] (by omega),
    show min 36000 24000 = 24000 by omega]
  norm_num [-List.reduceReplicate, node1]

theorem sB4_eq : sB4 = ⟨[], true, some 2, [node0se, node1, node2], true⟩ := by
  rw [sB4, sB3_eq]
  unfold App.onUnitEnded
  have hm : App.markEnded [node0s, node1] 0 = [node0se, node1] := by
    simp only [-List.reduceReplicate, App.markEnded, List.map_cons, List.map_nil,
      node0s, node0se, node1]
    norm_num [-List.reduceReplicate]
  dsimp only
  rw [hm]
  rw [App.schedulePlayback_replicate 12000 (some 1) [node0se, node1] (by omega),
    show min 12000 24000 = 12000 by omega]
  simp only [Nat.sub_self, List.replicate_zero]
  rfl

/-! ## Remaining helper lemmas -/

theorem App.onInterruption_idle {s : App.ClientState} (h : App.IdleState s) :
    App.onInterruption s = s := by
  obtain ⟨hb, hp, hn⟩ := h
  cases s
  subst hb hp hn
  rfl

theorem App.mem_stopNode {ns : List App.SourceNode} {k : ℕ} {m : App.SourceNode}
    (hm : m ∈ App.stopNode ns k) (hnid : m.nid = k) :
    m.stopped = true ∧ m.connected = false := by
  simp only [App.stopNode, List.mem_map] at hm
  obtain ⟨n, _, hn⟩ := hm
  by_cases h : n.nid = k
  · rw [if_pos h] at hn
    subst hn
    exact ⟨rfl, rfl⟩
  · rw [if_neg h] at hn
    subst hn
    exact absurd hnid h

theorem App.schedulePlayback_contextRunning (s : App.ClientState) :
    (App.schedulePlayback s).contextRunning = s.contextRunning := by
  by_cases hp : s.isPlaying = true
  · rw [App.schedulePlayback_noop_playing hp]
  · have hp' : s.isPlaying = false := by simp_all
    by_cases hr : s.contextRunning = true
    · by_cases hl : App.MIN_SAMPLES_TO_START_PLAYBACK ≤ s.clientPlaybackBuffer.length
      · rw [App.schedulePlayback_materialize hr hp' hl]
      · rw [App.schedulePlayback_noop_small (by omega)]
    · have hr' : s.contextRunning = false := by simp_all
      rw [App.schedulePlayback_noop_notRunning hr']

theorem inFlightCount_sB4 : App.inFlightCount sB4 = 2 := by
  rw [sB4_eq]
  rfl

theorem App.onInterruption_isPlaying (s : App.ClientState) :
    (App.onInterruption s).isPlaying = false := by
  rcases hn : s.audioPlaybackNode with _ | k <;> simp [App.onInterruption, hn]

theorem sB4_reachable : App.Reachable sB4 := by
  have h0 : App.Reachable (App.initState true) := App.Reachable.init true
  have h1 : App.Reachable sB1 := h0.step (App.Step.ingest _ chunk12k)
  have h2 : App.Reachable sB2 := h1.step (App.Step.interrupt _)
  have h3 : App.Reachable sB3 := h2.step (App.Step.ingest _ chunk36k)
  refine h3.step (App.Step.ended _ 0 ?_)
  rw [sB3_eq]
  exact ⟨node0s, List.mem_cons_self _ _, rfl, rfl⟩

/-- `node2` after the interruption at `sB4` force-stopped it. -/
def node2s : App.SourceNode := ⟨2, List.replicate 12000 0, true, false, false⟩

theorem onInterruption_sB4_eq :
    App.onInterruption sB4 = ⟨[], false, none, [node0se, node1, node2s], true⟩ := by
  rw [sB4_eq]
  unfold App.onInterruption
  simp only [-List.reduceReplicate, App.stopNode, List.map_cons, List.map_nil,
    node0se, node1, node2, node2s]
  rfl

theorem sum_len_div : ∀ l : List (List ℚ),
    (l.map fun b => (b.length : ℚ) / 24000).sum = ((l.map List.length).sum : ℚ) / 24000
  | [] => by simp
  | b :: t => by
    rw [List.map_cons, List.sum_cons, sum_len_div t, List.map_cons, List.sum_cons]
    push_cast
    ring

/-- Contiguity exactly as the claim words it: consecutive units satisfy
`unit[i].start + unit[i].duration = unit[i+1].start` (strict equality,
with duration `sampleCount / sampleRate`). -/
def contiguousEq : List (ℚ × List ℚ) → Prop
  | u :: v :: rest => u.1 + (u.2.length : ℚ) / 24000 = v.1 ∧ contiguousEq (v :: rest)
  | _ => True

/-! ## Claims -/

/-- Claim C1 (amended): after the client processes an `interruption`
message, the unit the code tracks (the current `audioPlaybackNode`)
is force-stopped and disconnected, the pending buffer and the tracked
reference are cleared, the playing flag is cleared; the operation is
total (never raises) and is a no-op in `IDLE`.  On every schedule in
which end notifications are only delivered for units still in flight
(in particular absent any prior manifestation of the unguarded
`onended` race), the tracked unit is the only in-flight unit, so the
interruption stops every unit that was in flight — no audio in flight
before the interruption remains scheduled afterward.  Unconditionally
that last conclusion fails (see the counterexample): the code's
active set holds at most the one tracked node, and a race-produced
untracked unit survives interruption. -/
theorem interruption_clears_all (s : App.ClientState) :
    clientOnMessage s .interruption = App.onInterruption s ∧
    (App.onInterruption s).clientPlaybackBuffer = [] ∧
    (App.onInterruption s).isPlaying = false ∧
    (App.onInterruption s).audioPlaybackNode = none ∧
    (∀ k, s.audioPlaybackNode = some k →
      ∀ m ∈ (App.onInterruption s).nodes, m.nid = k →
        m.stopped = true ∧ m.connected = false) ∧
    (App.IdleState s → App.onInterruption s = s) ∧
    (App.GoodReachable s → App.inFlightCount (App.onInterruption s) = 0) := by
  refine ⟨rfl, ?_, ?_, ?_, ?_, App.onInterruption_idle, ?_⟩
  · rcases hn : s.audioPlaybackNode with _ | k <;> simp [App.onInterruption, hn]
  · rcases hn : s.audioPlaybackNode with _ | k <;> simp [App.onInterruption, hn]
  · rcases hn : s.audioPlaybackNode with _ | k <;> simp [App.onInterruption, hn]
  · intro k hk m hm hmk
    unfold App.onInterruption at hm
    rw [hk] at hm
    exact App.mem_stopNode hm hmk
  · intro hg
    have hinv := App.inFlightInv_onInterruption (App.goodReachable_inFlightInv hg)
    unfold App.inFlightCount
    rw [hinv.2 (App.onInterruption_isPlaying s)]
    rfl

/-- A one-node, one-sample state used as the C1 witness input. -/
def wActive : App.ClientState := ⟨[1], true, some 0, [⟨0, [1], false, true, false⟩], true⟩

/-- An `IDLE` state used as the C1 witness input. -/
def wIdle : App.ClientState := ⟨[], false, none, [], true⟩

/-- Witness for C1: the claim instantiated at a state with one active
unit, at an idle state, and at a good-reachable state. -/
theorem interruption_clears_all_witness :
    ((App.onInterruption wActive).clientPlaybackBuffer = [] ∧
      (App.onInterruption wActive).isPlaying = false ∧
      (App.onInterruption wActive).audioPlaybackNode = none) ∧
    (∀ m ∈ (App.onInterruption wActive).nodes, m.nid = 0 →
      m.stopped = true ∧ m.connected = false) ∧
    App.onInterruption wIdle = wIdle ∧
    App.inFlightCount (App.onInterruption (App.initState true)) = 0 := by
  refine ⟨?_, ?_, ?_, ?_⟩
  · obtain ⟨_, h2, h3, h4, _, _, _⟩ := interruption_clears_all wActive
    exact ⟨h2, h3, h4⟩
  · exact (interruption_clears_all wActive).2.2.2.2.1 0 rfl
  · exact (interruption_clears_all wIdle).2.2.2.2.2.1 ⟨rfl, rfl, rfl⟩
  · exact (interruption_clears_all (App.initState true)).2.2.2.2.2.2
      (App.GoodReachable.init true)

/-- Counterexample for C1 as stated: at the reachable race state `sB4`
(two units in flight), processing an interruption stops only the
tracked `node2` and leaves `node1` — 24000 samples that were in
flight before the interruption — unstopped, still connected, and
still in flight afterward, refuting "every unit in the Active Unit
Set is force-stopped ... no audio that was in flight before the
interruption remains scheduled afterward". -/
theorem interruption_misses_untracked_unit_counterexample :
    App.Reachable sB4 ∧
    node1 ∈ sB4.nodes ∧ App.inFlight node1 = true ∧
    node1 ∈ (App.onInterruption sB4).nodes ∧
    (App.onInterruption sB4).nodes.filter App.inFlight = [node1] ∧
    node1.stopped = false ∧ node1.connected = true ∧
    node1.samples.length = 24000 := by
  refine ⟨sB4_reachable, ?_, rfl, ?_, ?_, rfl, rfl, ?_⟩
  · rw [sB4_eq]
    exact List.mem_cons_of_mem _ (List.mem_cons_self _ _)
  · rw [onInterruption_sB4_eq]
    exact List.mem_cons_of_mem _ (List.mem_cons_self _ _)
  · rw [onInterruption_sB4_eq]
    rfl
  · show (List.replicate 24000 (0 : ℚ)).length = 24000
    simp only [List.length_replicate]

/-- Claim C2 (code bug): the `onended` handler of a force-stopped unit
is not guarded, so if it is dispatched after fresh audio has been
ingested it clears `isPlaying`, splices the pending buffer, and
materialises a second unit while `node1` is still sounding: after the
race trace, the stopped unit's pending notification turns a 12000-sample
buffer into an empty one, adds a node, and leaves two units in flight. -/
theorem late_ended_of_stopped_unit_mutates_state :
    (∃ m ∈ sB3.nodes, m.nid = 0 ∧ m.stopped = true ∧ m.endedFired = false) ∧
    sB3.clientPlaybackBuffer.length = 12000 ∧ sB3.isPlaying = true ∧
    App.onUnitEnded sB3 0 = sB4 ∧
    sB4.clientPlaybackBuffer = [] ∧
    sB4.nodes.length = sB3.nodes.length + 1 ∧
    App.inFlightCount sB4 = 2 := by
  refine ⟨?_, ?_, ?_, rfl, ?_, ?_, inFlightCount_sB4⟩
  · rw [sB3_eq]
    exact ⟨node0s, List.mem_cons_self _ _, rfl, rfl, rfl⟩
  · rw [sB3_eq]
    simp only [List.length_replicate]
  · rw [sB3_eq]
  · rw [sB4_eq]
  · rw [sB4_eq, sB3_eq]
    rfl

/-- Claim C3 (amended): for every well-formed trace of the
immediate-policy client, every accepted chunk becomes its own unit
(the started units followed by the queued buffers are exactly the
accepted chunks, in order), consecutive units satisfy
`unit[i].start + unit[i].duration ≤ unit[i+1].start`, and once the
queue has drained the total scheduled duration is `M / 24000` for `M`
the total number of accepted samples. -/
theorem immediate_policy_trace_properties (es : List V1.VEvent)
    (h : V1.wfTrace V1.vinit es = true) :
    V1.contiguousLe (V1.runTrace V1.vinit es).started ∧
    (V1.runTrace V1.vinit es).started.map Prod.snd ++
        (V1.runTrace V1.vinit es).audioQueue = (V1.runTrace V1.vinit es).ingested ∧
    ((V1.runTrace V1.vinit es).audioQueue = [] →
      ((V1.runTrace V1.vinit es).started.map
          (fun u => (u.2.length : ℚ) / 24000)).sum =
        (((V1.runTrace V1.vinit es).ingested.map List.length).sum : ℚ) / 24000) := by
  obtain ⟨_, hc, hcons, _, _⟩ := V1.vinv_runTrace es V1.vinit V1.vinv_vinit h
  refine ⟨hc, hcons, fun hq => ?_⟩
  rw [hq, List.append_nil] at hcons
  have hmm : (V1.runTrace V1.vinit es).started.map (fun u => (u.2.length : ℚ) / 24000) =
      ((V1.runTrace V1.vinit es).started.map Prod.snd).map
        (fun b => (b.length : ℚ) / 24000) := by
    rw [List.map_map]
    rfl
  rw [hmm, hcons, sum_len_div]

/-- A small well-formed trace: one 2-sample chunk at time 0, its end
notification at time 1. -/
def esW : List V1.VEvent := [.ingest 0 [0, 0, 0, 0], .ended 1]

/-- Witness for C3: the amended claim instantiated on `esW`. -/
theorem immediate_policy_trace_witness :
    V1.contiguousLe (V1.runTrace V1.vinit esW).started ∧
    (V1.runTrace V1.vinit esW).started.map Prod.snd ++
        (V1.runTrace V1.vinit esW).audioQueue = (V1.runTrace V1.vinit esW).ingested ∧
    ((V1.runTrace V1.vinit esW).audioQueue = [] →
      ((V1.runTrace V1.vinit esW).started.map
          (fun u => (u.2.length : ℚ) / 24000)).sum =
        (((V1.runTrace V1.vinit esW).ingested.map List.length).sum : ℚ) / 24000) :=
  immediate_policy_trace_properties esW (by
    norm_num [esW, V1.wfTrace, V1.okEvent, V1.vstep, V1.onAudioData, V1.queueAudio,
      V1.enqueue, V1.playNextInQueue, V1.vinit, V1.unitEnd, decodePCM16LE, toInt16])

/-- The trace refuting strict contiguity: two 2-sample chunks ingested
at time 0, the first unit's end notification dispatched at time 1
(admissible at any time at or after the unit's natural end). -/
def cexEvents : List V1.VEvent :=
  [.ingest 0 [0, 0, 0, 0], .ingest 0 [0, 0, 0, 0], .ended 1]

/-- Counterexample for C3 as stated: on a well-formed trace of the
immediate-policy code the second unit starts at the time its
predecessor's end notification is processed (time 1), not at
`unit[0].start + unit[0].duration = 2/24000`; there is no
`nextStartTime` cursor in this code. -/
theorem immediate_policy_contiguity_counterexample :
    V1.wfTrace V1.vinit cexEvents = true ∧
    (V1.runTrace V1.vinit cexEvents).started = [(0, [0, 0]), (1, [0, 0])] ∧
    ¬ contiguousEq (V1.runTrace V1.vinit cexEvents).started := by
  have h2 : (V1.runTrace V1.vinit cexEvents).started = [(0, [0, 0]), (1, [0, 0])] := by
    norm_num [cexEvents, V1.runTrace, V1.vstep, V1.onAudioData, V1.queueAudio,
      V1.enqueue, V1.playNextInQueue, V1.vinit, decodePCM16LE, toInt16]
  refine ⟨by norm_num [cexEvents, V1.wfTrace, V1.okEvent, V1.vstep, V1.onAudioData,
    V1.queueAudio, V1.enqueue, V1.playNextInQueue, V1.vinit, V1.unitEnd,
    decodePCM16LE, toInt16], h2, ?_⟩
  rw [h2]
  intro hcon
  have h3 : (0 : ℚ) + (([0, 0] : List ℚ).length : ℚ) / 24000 = 1 := hcon.1
  norm_num at h3

/-- Claim C4: with the threshold policy (threshold 12000 samples at
24 kHz), after two 5000-sample chunks the scheduler is still
buffering (10000 < 12000, nothing materialised); after the third chunk
exactly one unit of `min(15000, max(12000, 24000)) = 15000` samples is
materialised and in flight and the pending buffer is empty. -/
theorem threshold_three_chunk_scenario :
    st2.clientPlaybackBuffer.length = 10000 ∧ st2.isPlaying = false ∧ st2.nodes = [] ∧
    st3.clientPlaybackBuffer = [] ∧ st3.isPlaying = true ∧
    st3.nodes = [⟨0, List.replicate 15000 0, false, true, false⟩] ∧
    App.inFlightCount st3 = 1 := by
  refine ⟨?_, ?_, ?_, ?_, ?_, ?_, ?_⟩
  · rw [st2_eq]
    simp only [List.length_replicate]
  · rw [st2_eq]
  · rw [st2_eq]
  · rw [st3_eq]
  · rw [st3_eq]
  · rw [st3_eq]
  · rw [st3_eq]
    rfl

/-- Claim C5 (amended): a `turnComplete` Live-API message causes the
server to send nothing to the client, so the client scheduler state is
unchanged — no flush unit is materialised and sub-threshold pending
samples stay in the buffer. -/
theorem turn_complete_is_noop (s : App.ClientState) (sc : ServerContent)
    (h : sc.interrupted = false) :
    serverOnLiveMessage (.withServerContent sc) = [] ∧
    processMessages s (serverOnLiveMessage (.withServerContent sc)) = s := by
  have he : serverOnLiveMessage (.withServerContent sc) = [] := by
    simp [serverOnLiveMessage, h]
  exact ⟨he, by rw [he]; rfl⟩

/-- Witness for C5: a turn-complete-only `serverContent` message
processed from the initial state. -/
theorem turn_complete_is_noop_witness :
    serverOnLiveMessage (.withServerContent ⟨false, true, false⟩) = [] ∧
    processMessages (App.initState true)
      (serverOnLiveMessage (.withServerContent ⟨false, true, false⟩)) =
      App.initState true :=
  turn_complete_is_noop (App.initState true) ⟨false, true, false⟩ rfl

/-- Counterexample for C5 as stated: with 5000 pending samples (nonzero,
below the 12000 threshold) and nothing playing, processing a
turn-complete leaves the buffer non-empty — no final flush unit is
forced, contradicting the claimed empty Pending Buffer. -/
theorem turn_complete_no_flush_counterexample :
    st1.clientPlaybackBuffer.length = 5000 ∧
    st1.isPlaying = false ∧
    processMessages st1 (serverOnLiveMessage (.withServerContent ⟨false, true, false⟩)) =
      st1 ∧
    st1.clientPlaybackBuffer ≠ [] := by
  have hmsg : serverOnLiveMessage (.withServerContent ⟨false, true, false⟩) =
      ([] : List WsMessage) := rfl
  refine ⟨?_, ?_, ?_, ?_⟩
  · rw [st1_eq]
    simp only [List.length_replicate]
  · rw [st1_eq]
  · rw [hmsg, st1_eq]
    rfl
  · rw [st1_eq]
    intro hc
    have hlen := congrArg List.length hc
    simp only [List.length_replicate, List.length_nil] at hlen
    exact absurd hlen (by decide)

/-- Claim C6: for every even-length byte sequence, `queueAudio` decodes
each consecutive little-endian byte pair to `int16 / 32768`, every
decoded sample lies in `[-1, 1]`, the decoded samples are appended to
the pending buffer in order (`buffer ++ decoded`), and the scheduler
entry point is invoked on the result. -/
theorem ingest_decodes_and_appends (s : App.ClientState) (bytes : List (Fin 256))
    (h : bytes.length % 2 = 0) :
    App.queueAudio s bytes = Except.ok (App.schedulePlayback
      { s with clientPlaybackBuffer := s.clientPlaybackBuffer ++ decodePCM16LE bytes }) ∧
    (decodePCM16LE bytes).length = bytes.length / 2 ∧
    (∀ q ∈ decodePCM16LE bytes, -1 ≤ q ∧ q ≤ 1) ∧
    (∀ i : ℕ, 2 * i + 1 < bytes.length →
      ∃ lo hi, bytes.get? (2 * i) = some lo ∧ bytes.get? (2 * i + 1) = some hi ∧
        (decodePCM16LE bytes).get? i = some ((toInt16 lo hi : ℚ) / 32768)) :=
  ⟨App.queueAudio_even h, decodePCM16LE_length bytes, decodePCM16LE_mem_range bytes,
   fun i hi => decodePCM16LE_get? bytes i hi⟩

/-- Witness for C6 at the two-byte chunk `[1, 128]` (the int16 `-32767`). -/
theorem ingest_decodes_and_appends_witness :
    App.queueAudio (App.initState true) [1, 128] = Except.ok (App.schedulePlayback
      { App.initState true with clientPlaybackBuffer :=
          (App.initState true).clientPlaybackBuffer ++ decodePCM16LE [1, 128] }) ∧
    (decodePCM16LE [1, 128]).length = ([1, 128] : List (Fin 256)).length / 2 ∧
    (∀ q ∈ decodePCM16LE [1, 128], -1 ≤ q ∧ q ≤ 1) ∧
    (∀ i : ℕ, 2 * i + 1 < ([1, 128] : List (Fin 256)).length →
      ∃ lo hi, ([1, 128] : List (Fin 256)).get? (2 * i) = some lo ∧
        ([1, 128] : List (Fin 256)).get? (2 * i + 1) = some hi ∧
        (decodePCM16LE [1, 128]).get? i = some ((toInt16 lo hi : ℚ) / 32768)) :=
  ingest_decodes_and_appends (App.initState true) [1, 128] rfl

/-- Claim C7 (amended): an odd-length chunk decodes zero samples — the
`Int16Array` view construction fails, so the whole chunk is dropped
and the message handler's catch swallows the error, leaving the state
unchanged. -/
theorem odd_ingest_drops_whole_chunk (s : App.ClientState) (bytes : List (Fin 256))
    (h : bytes.length % 2 = 1) :
    App.queueAudio s bytes = Except.error () ∧
    App.onAudioData s bytes = s :=
  ⟨App.queueAudio_odd h, App.onAudioData_odd h⟩

/-- Witness for C7 at the three-byte chunk `[5, 6, 7]`. -/
theorem odd_ingest_drops_whole_chunk_witness :
    App.queueAudio (App.initState true) [5, 6, 7] = Except.error () ∧
    App.onAudioData (App.initState true) [5, 6, 7] = App.initState true :=
  odd_ingest_drops_whole_chunk (App.initState true) [5, 6, 7] rfl

/-- Counterexample for C7 as stated: ingesting the 3-byte chunk
`[0, 0, 0]` (`2k+1` with `k = 1`) appends 0 samples, not `k = 1`:
the whole chunk is discarded, not truncated by one byte. -/
theorem odd_ingest_truncation_counterexample :
    App.onAudioData (App.initState true) [0, 0, 0] = App.initState true ∧
    ¬ ((App.onAudioData (App.initState true) [0, 0, 0]).clientPlaybackBuffer.length =
        (App.initState true).clientPlaybackBuffer.length + 1) := by
  have h := @App.onAudioData_odd (App.initState true) [0, 0, 0] rfl
  refine ⟨h, ?_⟩
  rw [h]
  intro hc
  exact absurd hc (by decide)

/-- Claim C8: ingesting a zero-length chunk from any reachable state is
a no-op: the whole scheduler state (buffer, playing flag, nodes) is
unchanged and no error escapes. -/
theorem zero_length_ingest_noop (s : App.ClientState) (h : App.Reachable s) :
    App.onAudioData s [] = s ∧ App.queueAudio s [] = Except.ok s := by
  have hsched : App.schedulePlayback s = s :=
    App.schedulePlayback_noop_of_schedInv (App.reachable_schedInv h)
  constructor
  · rw [@App.onAudioData_even s [] rfl]
    rw [show decodePCM16LE [] = [] from rfl, List.append_nil]
    exact hsched
  · rw [@App.queueAudio_even s [] rfl]
    rw [show decodePCM16LE [] = [] from rfl, List.append_nil]
    exact congrArg Except.ok hsched

/-- Witness for C8 at the (reachable) initial state. -/
theorem zero_length_ingest_noop_witness :
    App.onAudioData (App.initState true) [] = App.initState true ∧
    App.queueAudio (App.initState true) [] = Except.ok (App.initState true) :=
  zero_length_ingest_noop (App.initState true) (App.Reachable.init true)

/-- Claim C9: whenever `schedulePlayback` materialises (context running,
not playing, at least the threshold pending), the unit holds between
12000 and 24000 samples — so the defensive zero-sample branch is not
taken (the returned state is the materialising branch's) — and a unit
is materialised only when the buffer holds at least the threshold. -/
theorem materialized_unit_bounds (s : App.ClientState)
    (hr : s.contextRunning = true) (hp : s.isPlaying = false)
    (hl : App.MIN_SAMPLES_TO_START_PLAYBACK ≤ s.clientPlaybackBuffer.length) :
    App.schedulePlayback s =
      { s with isPlaying := true,
               clientPlaybackBuffer :=
                 s.clientPlaybackBuffer.drop (App.samplesToPlayCount s),
               audioPlaybackNode := some s.nodes.length,
               nodes := s.nodes ++
                 [⟨s.nodes.length,
                   s.clientPlaybackBuffer.take (App.samplesToPlayCount s),
                   false, true, false⟩] } ∧
    App.MIN_SAMPLES_TO_START_PLAYBACK ≤
      (s.clientPlaybackBuffer.take (App.samplesToPlayCount s)).length ∧
    (s.clientPlaybackBuffer.take (App.samplesToPlayCount s)).length ≤ 24000 ∧
    (∀ s' : App.ClientState, (App.schedulePlayback s').nodes ≠ s'.nodes →
      App.MIN_SAMPLES_TO_START_PLAYBACK ≤ s'.clientPlaybackBuffer.length) := by
  obtain ⟨h1, h2, h3⟩ := App.samplesToPlayCount_bounds hl
  refine ⟨App.schedulePlayback_materialize hr hp hl, ?_, ?_, ?_⟩
  · rw [List.length_take]
    omega
  · rw [List.length_take]
    omega
  · intro s' hne
    by_contra hlt
    push_neg at hlt
    rw [App.schedulePlayback_noop_small hlt] at hne
    exact hne rfl

/-- A 13000-sample pending buffer, idle, used as the C9 witness input. -/
def wBig : App.ClientState := ⟨List.replicate 13000 0, false, none, [], true⟩

/-- Witness for C9 at a 13000-sample pending buffer. -/
theorem materialized_unit_bounds_witness :
    App.schedulePlayback wBig =
      { wBig with isPlaying := true,
                  clientPlaybackBuffer :=
                    wBig.clientPlaybackBuffer.drop (App.samplesToPlayCount wBig),
                  audioPlaybackNode := some wBig.nodes.length,
                  nodes := wBig.nodes ++
                    [⟨wBig.nodes.length,
                      wBig.clientPlaybackBuffer.take (App.samplesToPlayCount wBig),
                      false, true, false⟩] } ∧
    App.MIN_SAMPLES_TO_START_PLAYBACK ≤
      (wBig.clientPlaybackBuffer.take (App.samplesToPlayCount wBig)).length ∧
    (wBig.clientPlaybackBuffer.take (App.samplesToPlayCount wBig)).length ≤ 24000 ∧
    (∀ s' : App.ClientState, (App.schedulePlayback s').nodes ≠ s'.nodes →
      App.MIN_SAMPLES_TO_START_PLAYBACK ≤ s'.clientPlaybackBuffer.length) :=
  materialized_unit_bounds wBig rfl rfl
    (by simp only [wBig, App.min_samples_eq, List.length_replicate]; omega)

/-- Claim C10 (amended): whenever `schedulePlayback` returns with the
context running, either the playing flag is set or fewer than 12000
samples are pending; it never materialises while the flag is set; and
on every schedule in which end notifications are only delivered for
units still in flight, at most one unit is in flight at any reachable
state. -/
theorem scheduler_invariant_single_flight :
    (∀ s : App.ClientState, s.contextRunning = true →
      (App.schedulePlayback s).isPlaying = true ∨
        (App.schedulePlayback s).clientPlaybackBuffer.length <
          App.MIN_SAMPLES_TO_START_PLAYBACK) ∧
    (∀ s : App.ClientState, s.isPlaying = true → App.schedulePlayback s = s) ∧
    (∀ s : App.ClientState, App.GoodReachable s → App.inFlightCount s ≤ 1) := by
  refine ⟨fun s hr => ?_, fun s hp => App.schedulePlayback_noop_playing hp,
    fun s hg => App.goodReachable_inFlightCount hg⟩
  rcases App.schedInv_schedulePlayback s with h | h | h
  · exact Or.inl h
  · exact Or.inr h
  · rw [App.schedulePlayback_contextRunning, hr] at h
    exact absurd h (by decide)

/-- A below-threshold idle state used as a C10 witness input. -/
def wSmall : App.ClientState := ⟨[1], false, none, [], true⟩

/-- A playing state used as a C10 witness input. -/
def wPlaying : App.ClientState := ⟨[], true, some 0, [⟨0, [1], false, true, false⟩], true⟩

/-- Witness for C10 at a small idle buffer, a playing state, and the
initial state. -/
theorem scheduler_invariant_single_flight_witness :
    ((App.schedulePlayback wSmall).isPlaying = true ∨
      (App.schedulePlayback wSmall).clientPlaybackBuffer.length <
        App.MIN_SAMPLES_TO_START_PLAYBACK) ∧
    App.schedulePlayback wPlaying = wPlaying ∧
    App.inFlightCount (App.initState true) ≤ 1 :=
  ⟨scheduler_invariant_single_flight.1 wSmall rfl,
   scheduler_invariant_single_flight.2.1 wPlaying rfl,
   scheduler_invariant_single_flight.2.2 _ (App.GoodReachable.init true)⟩

/-- Counterexample for C10's "at most one unit in flight at a time": a
reachable state (via ingest, interruption, ingest, late `onended` of
the stopped unit) with two units in flight simultaneously. -/
theorem two_units_in_flight_counterexample :
    App.Reachable sB4 ∧ App.inFlightCount sB4 = 2 := by
  constructor
  · have h0 : App.Reachable (App.initState true) := App.Reachable.init true
    have h1 : App.Reachable sB1 := h0.step (App.Step.ingest _ chunk12k)
    have h2 : App.Reachable sB2 := h1.step (App.Step.interrupt _)
    have h3 : App.Reachable sB3 := h2.step (App.Step.ingest _ chunk36k)
    refine h3.step (App.Step.ended _ 0 ?_)
    rw [sB3_eq]
    exact ⟨node0s, List.mem_cons_self _ _, rfl, rfl⟩
  · exact inFlightCount_sB4
